import Mathlib

/-!
Verification of the mini-swe-agent core against its source.

Strings coming from subprocess output are modelled as `List Char`; the
Python `str` helpers used by the repository (`lstrip`, `rstrip`, `strip`,
`splitlines(keepends=True)`) are embedded below for the character
repertoire the repository manipulates (ASCII plus the Latin-1/Unicode
whitespace and line-break characters Python recognises).
-/

/-- Characters accepted by Python `str.strip()` (no-argument form) as
whitespace, restricted to the ASCII/Latin-1/common-Unicode repertoire. -/
def pyIsSpace (c : Char) : Bool :=
  c = ' ' || c = '\t' || c = '\n' || c = '\r' || c = '\x0b' || c = '\x0c' ||
  c = '\x1c' || c = '\x1d' || c = '\x1e' || c = '\x1f' || c = '\x85' || c = '\u00A0'

/-- Characters that terminate a line for Python `str.splitlines`. -/
def pyIsLineBreak (c : Char) : Bool :=
  c = '\n' || c = '\r' || c = '\x0b' || c = '\x0c' ||
  c = '\x1c' || c = '\x1d' || c = '\x1e' || c = '\x85' || c = '\u2028' || c = '\u2029'

/-- Python `str.lstrip()`. -/
def pyLstrip (s : List Char) : List Char := s.dropWhile pyIsSpace

/-- Python `str.rstrip()`. -/
def pyRstrip (s : List Char) : List Char := (s.reverse.dropWhile pyIsSpace).reverse

/-- Python `str.strip()`. -/
def pyStrip (s : List Char) : List Char := pyRstrip (pyLstrip s)

/-- Worker for `pySplitlinesKeepends`; `acc` holds the current line reversed. -/
def pySplitlinesAux : List Char → List Char → List (List Char)
  | [], acc => if acc.isEmpty then [] else [acc.reverse]
  | c :: rest, acc =>
      if pyIsLineBreak c then
        match rest with
        | d :: rest2 =>
            if c = '\r' ∧ d = '\n' then (acc.reverse ++ [c, d]) :: pySplitlinesAux rest2 []
            else (acc.reverse ++ [c]) :: pySplitlinesAux (d :: rest2) []
        | [] => (acc.reverse ++ [c]) :: pySplitlinesAux [] []
      else pySplitlinesAux rest (c :: acc)

/-- Python `str.splitlines(keepends=True)`: each returned line keeps its
terminating line break; a `"\r\n"` pair is a single break. -/
def pySplitlinesKeepends (s : List Char) : List (List Char) := pySplitlinesAux s []

/-- Result of `Environment.execute`: combined stdout+stderr and the return
code (`local.py` line 46, `docker.py` line 130). -/
structure ExecResult where
  output : List Char
  returncode : Int
deriving DecidableEq

/-- The submission sentinel `COMPLETE_TASK_AND_SUBMIT_FINAL_OUTPUT`. -/
def submitSentinel : List Char := "COMPLETE_TASK_AND_SUBMIT_FINAL_OUTPUT".data

/-- The legacy sentinel `MINI_SWE_AGENT_FINAL_OUTPUT` accepted by
`DefaultAgent.has_finished` (`agents/default.py` line 144). -/
def legacySentinel : List Char := "MINI_SWE_AGENT_FINAL_OUTPUT".data

/-- `LocalEnvironment._check_finished` (`environments/local.py` lines 88-99):
lstrip the output, split into lines keeping ends; if the first line,
stripped, is the sentinel, the run is submitted with the remaining lines
joined as payload.  Returns `some payload` when the code raises
`Submitted`; the return code of the result is never inspected. -/
def checkFinishedLocal (res : ExecResult) : Option (List Char) :=
  match pySplitlinesKeepends (pyLstrip res.output) with
  | [] => none
  | l0 :: rest => if pyStrip l0 = submitSentinel then some rest.flatten else none

/-- `DockerEnvironment._check_finished` (`environments/docker.py` lines
170-181): rstrip the output; if the last line, stripped, is the sentinel,
submit with all preceding lines joined as payload. -/
def checkFinishedDocker (res : ExecResult) : Option (List Char) :=
  match (pySplitlinesKeepends (pyRstrip res.output)).getLast? with
  | none => none
  | some ll =>
      if pyStrip ll = submitSentinel then
        some (pySplitlinesKeepends (pyRstrip res.output)).dropLast.flatten
      else none

/-- `DefaultAgent.has_finished` (`agents/default.py` lines 141-145): like
the local check but accepting the legacy sentinel as well (membership test
`in [legacy, new]`). -/
def hasFinished (res : ExecResult) : Option (List Char) :=
  match pySplitlinesKeepends (pyLstrip res.output) with
  | [] => none
  | l0 :: rest =>
      if pyStrip l0 = legacySentinel || pyStrip l0 = submitSentinel then some rest.flatten
      else none

/-- The guard of `LocalEnvironment._check_finished` in isolation: the first
line of the lstripped output, stripped, equals the sentinel. -/
def sentinelFirstLine (out : List Char) : Bool :=
  match pySplitlinesKeepends (pyLstrip out) with
  | [] => false
  | l0 :: _ => pyStrip l0 == submitSentinel

/-- The guard of `DockerEnvironment._check_finished` in isolation: the last
line of the rstripped output, stripped, equals the sentinel. -/
def sentinelLastLine (out : List Char) : Bool :=
  match (pySplitlinesKeepends (pyRstrip out)).getLast? with
  | none => false
  | some ll => pyStrip ll == submitSentinel

/-- The guard of `DefaultAgent.has_finished` in isolation: the first line
of the lstripped output, stripped, is one of the two accepted sentinels. -/
def anySentinelFirstLine (out : List Char) : Bool :=
  match pySplitlinesKeepends (pyLstrip out) with
  | [] => false
  | l0 :: _ => pyStrip l0 == legacySentinel || pyStrip l0 == submitSentinel

/-!
JSON-like values, modelling the nested dictionaries handled by
`minisweagent/utils/serialize.py`.  Python dictionaries are association
lists preserving insertion order; `unsetVal` models the module-level
`UNSET` sentinel (never a JSON value itself).
-/

inductive JVal where
  | str (s : String)
  | num (n : Int)
  | boolean (b : Bool)
  | null
  | arr (xs : List JVal)
  | dict (entries : List (String × JVal))
  | unsetVal

/-- Python `d[k]` lookup on an insertion-ordered dictionary. -/
def getKey? : List (String × JVal) → String → Option JVal
  | [], _ => none
  | (k, v) :: rest, key => if k = key then some v else getKey? rest key

/-- Python `d[k] = v`: update in place if the key exists, else append. -/
def setKey : List (String × JVal) → String → JVal → List (String × JVal)
  | [], key, val => [(key, val)]
  | (k, v) :: rest, key, val =>
      if k = key then (k, val) :: rest else (k, v) :: setKey rest key val

/-- `true` iff the value is the `UNSET` sentinel. -/
def JVal.isUnset : JVal → Bool
  | .unsetVal => true
  | _ => false

/-- Entries of a dictionary whose value is not `UNSET`.  This is what the
inner call `recursive_merge(result[key], value)` produces from its first
argument when that argument is a Python dict (unique keys): each entry is
copied over an empty accumulator, skipping `UNSET` values. -/
def stripUnset (l : List (String × JVal)) : List (String × JVal) :=
  l.filter fun e => !e.2.isUnset

mutual
/-- The loop body of `recursive_merge` (`utils/serialize.py` lines 16-25)
folding one dictionary `d` into the accumulated `result`. -/
def mergeOne : List (String × JVal) → List (String × JVal) → List (String × JVal)
  | r, [] => r
  | r, (k, v) :: rest => mergeOne (mergeEntry r k v) rest

/-- One iteration of the `for key, value in d.items()` loop: skip `UNSET`;
if both the accumulated value and the new value are dictionaries, merge
them recursively (the code calls the variadic `recursive_merge` again,
whose first pass over `result[key]` drops that dict's `UNSET` entries);
otherwise the new value overwrites. -/
def mergeEntry (r : List (String × JVal)) (k : String) : JVal → List (String × JVal)
  | .unsetVal => r
  | .dict dv =>
      match getKey? r k with
      | some (.dict rv) => setKey r k (.dict (mergeOne (stripUnset rv) dv))
      | _ => setKey r k (.dict dv)
  | v => setKey r k v
end

/-- `recursive_merge(*dictionaries)` (`utils/serialize.py` lines 6-26):
start from the empty dictionary, skip `None` arguments, fold each
dictionary in turn. -/
def recursiveMerge (ds : List (Option (List (String × JVal)))) : List (String × JVal) :=
  ds.foldl
    (fun acc d? =>
      match d? with
      | none => acc
      | some d => mergeOne acc d)
    []

/-- Keys of a dictionary, used to state that a Python dict has no
duplicate keys. -/
def dictKeys (l : List (String × JVal)) : List String := l.map Prod.fst

/-!
Trajectory saving, `DefaultAgent.save` (`agents/default.py` lines 159-169).
The file-system side effects are recorded as an operation trace;
`json.dumps(data, indent=2)` is external, so the write operation carries
the structured data itself.
-/

/-- A file-system operation performed while saving. -/
inductive FileOp where
  | mkdirParents (dir : List String)
  | writeText (path : List String) (data : List (String × JVal))
  | renameFile (src dst : List String)

/-- `true` for a rename operation (the move step of an atomic
write-to-temporary-then-rename protocol). -/
def FileOp.isRename : FileOp → Bool
  | .renameFile _ _ => true
  | _ => false

/-- The data assembled by `DefaultAgent.save` (lines 163-165): merge the
agent, model and environment serializations with the extra dictionaries,
stamp `data["trajectory_format"]` and `data["info"]["mini_version"]`.
Returns `none` when `data["info"]` is not a dictionary, in which case the
Python subscript assignment would raise (never the case for the
repository's serializers, which all nest their config under `"info"`). -/
def saveData (agentSer modelSer envSer : List (String × JVal))
    (extraDicts : List (Option (List (String × JVal)))) (version : String) :
    Option (List (String × JVal)) :=
  let d0 := recursiveMerge ([some agentSer, some modelSer, some envSer] ++ extraDicts)
  let d1 := setKey d0 "trajectory_format" (.str "mini-swe-agent-1")
  match getKey? d1 "info" with
  | some (.dict info) =>
      some (setKey d1 "info" (.dict (setKey info "mini_version" (.str version))))
  | _ => none

/-- The file-system trace of `DefaultAgent.save` (lines 166-168): when a
path is configured, create the missing parents of the target, then write
the serialized data to the target path in a single `write_text` call. -/
def agentSaveOps (path : Option (List String)) (data : List (String × JVal)) : List FileOp :=
  match path with
  | none => []
  | some p => [.mkdirParents p.dropLast, .writeText p data]

/-- `DefaultAgent.serialize` (`agents/default.py` lines 147-157). -/
def agentSerialize (agentCfg : JVal) (agentType : String) (messages : JVal) :
    List (String × JVal) :=
  [("info", .dict [("config", .dict [("agent", agentCfg), ("agent_type", .str agentType)])]),
   ("messages", messages)]

/-!
Text-dialect action parsing, `parse_regex_actions`
(`models/utils/actions_text.py` lines 12-27).  The Python regex engine is
treated as an oracle: the function receives the list of substrings
`re.findall(action_regex, content, re.DOTALL)` produced for the assistant
content, and the Jinja template rendering of `format_error_template` is an
opaque function of the `actions` variable handed to it.
-/

/-- The `FormatError` payload raised by `parse_regex_actions`: the message
content rendered from `format_error_template`, the number of matched
actions, and the raw model response. -/
structure FormatErrorMsg where
  content : List Char
  nActions : Nat
  modelResponse : List Char
deriving DecidableEq

/-- An action in the shape `parse_regex_actions` returns: one record with
a `command` field per match. -/
structure ParsedAction where
  command : List Char
deriving DecidableEq

/-- `parse_regex_actions(content, action_regex, format_error_template)`:
strip every regex match; unless there is exactly one, raise a
`FormatError` rendered from the template; otherwise return the single
command record. -/
def parseRegexActions (render : List (List Char) → List Char)
    (content : List Char) (found : List (List Char)) :
    Except FormatErrorMsg (List ParsedAction) :=
  let actions := found.map pyStrip
  if actions.length ≠ 1 then
    .error ⟨render actions, actions.length, content⟩
  else
    .ok (actions.map fun a => ⟨a⟩)

/-!
`Environment.execute_messages` (`environments/local.py` lines 48-73,
`environments/docker.py` lines 132-155).  Command execution is an oracle
mapping the action string to either a completed `ExecResult` or a timeout
carrying the partial output; observation messages are recorded through
their structured `extra` payloads (the Jinja-rendered bodies are opaque).
-/

/-- Outcome of `self.execute(action)` as seen by `execute_messages`. -/
inductive ExecOutcome where
  | finished (res : ExecResult)
  | timedOut (partialOut : List Char)

/-- An observation message produced by `execute_messages`: either a
regular observation (lines 75-86, carrying `raw_output`/`returncode`) or a
timeout observation (lines 61-69, tagged `ExecutionTimeoutError`). -/
inductive Observation where
  | obs (rawOut : List Char) (returncode : Int)
  | timeoutObs (partialOut : List Char)
deriving DecidableEq

/-- An input message as `execute_messages` sees it: `action` is the
optional `msg["extra"]["action"]` entry (messages without it are
skipped). -/
structure EnvMsg where
  action : Option (List Char)

/-- `execute_messages(messages)`: iterate the messages in order; for every
action, execute it; on timeout append a timeout observation and continue
with the next message; otherwise run the submission check (which raises
`Submitted`, modelled by `Except.error` carrying the payload) and append
one observation message. -/
def executeMessages (exec : List Char → ExecOutcome)
    (checkFin : ExecResult → Option (List Char)) :
    List EnvMsg → Except (List Char) (List Observation)
  | [] => .ok []
  | m :: rest =>
      match m.action with
      | none => executeMessages exec checkFin rest
      | some a =>
          match exec a with
          | .timedOut po =>
              match executeMessages exec checkFin rest with
              | .ok tailObs => .ok (.timeoutObs po :: tailObs)
              | .error e => .error e
          | .finished res =>
              match checkFin res with
              | some payload => .error payload
              | none =>
                  match executeMessages exec checkFin rest with
                  | .ok tailObs => .ok (.obs res.output res.returncode :: tailObs)
                  | .error e => .error e

/-- The observation that `execute_messages` appends for a single executed
action, given its execution outcome. -/
def obsOf : ExecOutcome → Observation
  | .finished res => .obs res.output res.returncode
  | .timedOut po => .timeoutObs po

/-!
`DefaultAgent.query` limit check (`agents/default.py` lines 108-114).
Costs are modelled as exact rationals; the check is the Python chained
comparison `0 < self.config.step_limit <= self.model.n_calls or
0 < self.config.cost_limit <= self.model.cost`.
-/

/-- What `DefaultAgent.query` does before anything else: `limitsExceeded`
models raising `LimitsExceeded` (the model is not consulted);
`modelQueried` models falling through to `self.model.query(...)`. -/
inductive QueryOutcome where
  | limitsExceeded
  | modelQueried
deriving DecidableEq

/-- The guard of `DefaultAgent.query` (line 110). -/
def agentQuery (stepLimit : Nat) (costLimit : ℚ) (nCalls : Nat) (cost : ℚ) : QueryOutcome :=
  if (0 < stepLimit ∧ stepLimit ≤ nCalls) ∨ (0 < costLimit ∧ costLimit ≤ cost) then
    .limitsExceeded
  else
    .modelQueried

/-!
Cost accounting, `LitellmModel._calculate_cost`
(`models/litellm_model.py` lines 238-256).  The provider's calculator
`litellm.cost_calculator.completion_cost` is an oracle: `none` models it
raising, `some c` models it returning `c`.  A computed `cost <= 0.0`
raises a `ValueError` that is handled by the same `except` block as a
calculator failure.  `Except.error` models the `RuntimeError` that fails
the surrounding `query` call.
-/

/-- The `cost_tracking` configuration field. -/
inductive CostTracking where
  | default
  | ignoreErrors
deriving DecidableEq

/-- `_calculate_cost(response)`: require a computed cost strictly greater
than zero; on failure set the cost to 0.0 and, unless
`cost_tracking == "ignore_errors"`, raise. -/
def calculateCost (tracking : CostTracking) (calcRes : Option ℚ) : Except Unit ℚ :=
  match calcRes with
  | some c =>
      if c ≤ 0 then
        match tracking with
        | .ignoreErrors => .ok 0
        | .default => .error ()
      else .ok c
  | none =>
      match tracking with
      | .ignoreErrors => .ok 0
      | .default => .error ()

/-!
Retry discipline of the model clients.  Error classes are abstracted by
`ErrClass`; each backend's abort predicate is taken from its source:
`LitellmModel.abort_exceptions` (`models/litellm_model.py` lines 64-71),
the tenacity `retry_if_not_exception_type` list of
`LitellmResponseAPIModel._query` (`models/litellm_response_api_model.py`
lines 30-46), and the tenacity predicate of `PortkeyModel._query`
(`models/portkey_model.py` lines 66-71), which excludes only
`KeyboardInterrupt` from retrying.
-/

/-- Classes of errors a model query can raise. -/
inductive ErrClass where
  | unsupportedParams
  | notFound
  | permissionDenied
  | contextWindowExceeded
  | authentication
  | userCancel
  | apiError
  | rateLimited
  | serverError
deriving DecidableEq

/-- The model back-ends named by the retry claim. -/
inductive ModelBackend where
  | litellm
  | litellmResponseApi
  | portkey
deriving DecidableEq

/-- The six abort classes of `LitellmModel.abort_exceptions`:
`UnsupportedParamsError`, `NotFoundError`, `PermissionDeniedError`,
`ContextWindowExceededError`, `AuthenticationError`, `KeyboardInterrupt`. -/
def abortClassList : List ErrClass :=
  [.unsupportedParams, .notFound, .permissionDenied, .contextWindowExceeded,
   .authentication, .userCancel]

/-- Which error classes each backend treats as non-retryable. -/
def abortsOn : ModelBackend → ErrClass → Bool
  | .litellm, e =>
      match e with
      | .unsupportedParams | .notFound | .permissionDenied
      | .contextWindowExceeded | .authentication | .userCancel => true
      | _ => false
  | .litellmResponseApi, e =>
      match e with
      | .unsupportedParams | .notFound | .permissionDenied
      | .contextWindowExceeded | .apiError | .authentication | .userCancel => true
      | _ => false
  | .portkey, e =>
      match e with
      | .userCancel => true
      | _ => false

/-- Result of the n-th query attempt (an oracle indexed by the number of
attempts already made). -/
inductive AttemptResult where
  | success
  | failure (e : ErrClass)

/-- Outcome of the retry driver, with the number of attempts made. -/
inductive RetryOutcome where
  | succeeded (attempts : Nat)
  | aborted (e : ErrClass) (attempts : Nat)
  | exhausted (attempts : Nat)
deriving DecidableEq

/-- Modelled from the spec: the retry driver used by `LitellmModel.query`
lives in `minisweagent/models/utils/retry.py`, which is absent from the
source tree; the spec fixes its contract (bounded attempts, default at
most 10; errors in the abort list bypass retry; other errors are
retried).  For the other two backends the same driver shape is read off
the tenacity decorators `stop_after_attempt(10)` /
`retry_if_not_exception_type(...)` present in the source. -/
def runRetryAux (abortsP : ErrClass → Bool) (oracle : Nat → AttemptResult) :
    Nat → Nat → RetryOutcome
  | used, 0 => .exhausted used
  | used, remaining + 1 =>
      match oracle used with
      | .success => .succeeded (used + 1)
      | .failure e =>
          if abortsP e then .aborted e (used + 1)
          else runRetryAux abortsP oracle (used + 1) remaining

/-- Run up to `maxAttempts` attempts with the given abort predicate. -/
def runRetry (abortsP : ErrClass → Bool) (maxAttempts : Nat)
    (oracle : Nat → AttemptResult) : RetryOutcome :=
  runRetryAux abortsP oracle 0 maxAttempts

/-- The number of attempts a retry outcome reports. -/
def RetryOutcome.attemptsMade : RetryOutcome → Nat
  | .succeeded n => n
  | .aborted _ n => n
  | .exhausted n => n

/-!
The agent main loop, `DefaultAgent.run` (`agents/default.py` lines
82-102).  One iteration of the `while True` body is recorded as an event
trace; the `finally` clause runs before a `continue`, a `return` or a
re-raise takes effect.
-/

/-- The `info` dictionary recorded for a terminal step. -/
structure ExitInfo where
  exitStatus : String
  submission : String
  hasTraceback : Bool
deriving DecidableEq

/-- How one call to `self.step()` resolves, mirroring the four branches of
the loop body: normal return, a `NonTerminatingException`, a
`TerminatingException` (`Submitted` / `LimitsExceeded`), or any other
exception. -/
inductive StepOutcome where
  | completed
  | nonTerminating (msg : String)
  | terminating (name msg : String)
  | failed (name msg : String)

/-- Events of one loop iteration, in program order. -/
inductive RunEvent where
  | addedUserMessage (s : String)
  | savedTrajectory (info : Option ExitInfo)
  | continuedLoop
  | returnedInfo (info : ExitInfo)
  | reraised (name : String)
deriving DecidableEq

/-- The event trace of one iteration of `DefaultAgent.run`'s loop body for
a given step outcome: exceptions append a user message; the `finally`
clause saves the trajectory (with the `info` assembled so far) before the
iteration continues, returns, or re-raises. -/
def runIterationEvents : StepOutcome → List RunEvent
  | .completed => [.savedTrajectory none, .continuedLoop]
  | .nonTerminating msg =>
      [.addedUserMessage msg, .savedTrajectory none, .continuedLoop]
  | .terminating name msg =>
      [.addedUserMessage msg, .savedTrajectory (some ⟨name, msg, false⟩),
       .returnedInfo ⟨name, msg, false⟩]
  | .failed name msg =>
      [.addedUserMessage msg, .savedTrajectory (some ⟨name, msg, true⟩),
       .reraised name]

/-- Events that end the iteration (control leaves the loop body). -/
def RunEvent.isExit : RunEvent → Bool
  | .continuedLoop => true
  | .returnedInfo _ => true
  | .reraised _ => true
  | _ => false

/-- Events that write the trajectory to `output_path`. -/
def RunEvent.isSave : RunEvent → Bool
  | .savedTrajectory _ => true
  | _ => false

/-- `true` iff every exit event in the trace is preceded by a save. -/
def savedBeforeEveryExit (evs : List RunEvent) : Bool :=
  go false evs
where
  go : Bool → List RunEvent → Bool
  | _, [] => true
  | sawSave, e :: rest =>
      if e.isExit then sawSave && go sawSave rest
      else go (sawSave || e.isSave) rest

/-!
Helper lemmas.
-/

/-- `"".join` of `splitlines(keepends=True)` restores the string. -/
theorem pySplitlinesAux_flatten (s acc : List Char) :
    (pySplitlinesAux s acc).flatten = acc.reverse ++ s := by
  induction s, acc using pySplitlinesAux.induct with
  | case1 acc h =>
      simp [pySplitlinesAux, h, List.isEmpty_iff.mp h]
  | case2 acc h =>
      simp [pySplitlinesAux, h]
  | case3 c acc hbr d rest2 hrn ih =>
      obtain ⟨hc, hd⟩ := hrn
      subst hc
      subst hd
      simp [pySplitlinesAux, hbr, ih]
  | case4 c acc hbr d rest2 hrn ih =>
      simp [pySplitlinesAux, hbr, hrn, ih]
  | case5 c acc hbr ih =>
      rw [pySplitlinesAux]
      simp [hbr, pySplitlinesAux]
  | case6 c rest acc hbr ih =>
      rw [pySplitlinesAux.eq_def]
      simp [hbr, ih]

theorem pySplitlines_flatten (s : List Char) :
    (pySplitlinesKeepends s).flatten = s := by
  simpa using pySplitlinesAux_flatten s []

theorem dropLast_append_of_getLast? {α : Type} :
    ∀ (l : List α) (x : α), l.getLast? = some x → l.dropLast ++ [x] = l := by
  intro l
  induction l with
  | nil => intro x h; simp at h
  | cons a tail ih =>
      intro x h
      cases tail with
      | nil =>
          simp [List.getLast?] at h
          simp [h]
      | cons b tail2 =>
          rw [List.getLast?_cons_cons] at h
          have hd := ih x h
          simpa using hd

theorem checkFinishedLocal_isSome (out : List Char) (rc : Int) :
    (checkFinishedLocal ⟨out, rc⟩).isSome = sentinelFirstLine out := by
  unfold checkFinishedLocal sentinelFirstLine
  cases h : pySplitlinesKeepends (pyLstrip out) with
  | nil => simp
  | cons l0 rest =>
      by_cases hs : pyStrip l0 = submitSentinel
      · simp [hs]
      · simp [hs]

theorem checkFinishedDocker_isSome (out : List Char) (rc : Int) :
    (checkFinishedDocker ⟨out, rc⟩).isSome = sentinelLastLine out := by
  unfold checkFinishedDocker sentinelLastLine
  cases h : (pySplitlinesKeepends (pyRstrip out)).getLast? with
  | none => simp [h]
  | some ll =>
      by_cases hs : pyStrip ll = submitSentinel
      · simp [h, hs]
      · simp [h, hs]

theorem checkFinishedLocal_decomp (out : List Char) (rc : Int) (p : List Char)
    (hp : checkFinishedLocal ⟨out, rc⟩ = some p) :
    ∃ line, pyStrip line = submitSentinel ∧ pyLstrip out = line ++ p := by
  unfold checkFinishedLocal at hp
  split at hp
  · simp at hp
  · next l0 rest heq =>
      split at hp
      · next hs =>
          refine ⟨l0, hs, ?_⟩
          have hflat := pySplitlines_flatten (pyLstrip out)
          rw [heq] at hflat
          simp only [List.flatten_cons] at hflat
          simp only [Option.some.injEq] at hp
          rw [← hflat, hp]
      · simp at hp

theorem checkFinishedDocker_decomp (out : List Char) (rc : Int) (p : List Char)
    (hp : checkFinishedDocker ⟨out, rc⟩ = some p) :
    ∃ line, pyStrip line = submitSentinel ∧ pyRstrip out = p ++ line := by
  unfold checkFinishedDocker at hp
  split at hp
  · simp at hp
  · next ll heq =>
      split at hp
      · next hs =>
          refine ⟨ll, hs, ?_⟩
          have hdec := dropLast_append_of_getLast? (pySplitlinesKeepends (pyRstrip out)) ll heq
          have hflat := pySplitlines_flatten (pyRstrip out)
          rw [← hdec] at hflat
          simp only [List.flatten_append, List.flatten_cons, List.flatten_nil,
            List.append_nil] at hflat
          simp only [Option.some.injEq] at hp
          rw [← hflat, hp]
      · simp at hp

theorem hasFinished_isSome (out : List Char) (rc : Int) :
    (hasFinished ⟨out, rc⟩).isSome = anySentinelFirstLine out := by
  unfold hasFinished anySentinelFirstLine
  cases h : pySplitlinesKeepends (pyLstrip out) with
  | nil => simp
  | cons l0 rest =>
      by_cases h1 : pyStrip l0 = legacySentinel
      · simp [h1]
      · by_cases h2 : pyStrip l0 = submitSentinel
        · simp [h1, h2]
        · simp [h1, h2]

theorem hasFinished_decomp (out : List Char) (rc : Int) (p : List Char)
    (hp : hasFinished ⟨out, rc⟩ = some p) :
    ∃ line, (pyStrip line = legacySentinel ∨ pyStrip line = submitSentinel) ∧
      pyLstrip out = line ++ p := by
  unfold hasFinished at hp
  split at hp
  · simp at hp
  · next l0 rest heq =>
      split at hp
      · next hs =>
          refine ⟨l0, ?_, ?_⟩
          · rcases Bool.or_eq_true_iff.mp hs with h1 | h2
            · exact Or.inl (by simpa using h1)
            · exact Or.inr (by simpa using h2)
          · have hflat := pySplitlines_flatten (pyLstrip out)
            rw [heq] at hflat
            simp only [List.flatten_cons] at hflat
            simp only [Option.some.injEq] at hp
            rw [← hflat, hp]
      · simp at hp

/-!
Claim C1.
-/

/-- C1 (amended): for every execution result, the environment raises
`Submitted` if and only if the sentinel `COMPLETE_TASK_AND_SUBMIT_FINAL_OUTPUT`
is at the dialect's designated position — first non-blank line for the
local environment, last non-blank line for the docker environment —
regardless of the command's return code (the code never inspects it); the
submission payload is the remainder of the stripped output with the
sentinel line removed. -/
theorem submitted_iff_sentinel_position (out : List Char) (rc : Int) :
    ((checkFinishedLocal ⟨out, rc⟩).isSome = sentinelFirstLine out)
    ∧ ((checkFinishedDocker ⟨out, rc⟩).isSome = sentinelLastLine out)
    ∧ (∀ p, checkFinishedLocal ⟨out, rc⟩ = some p →
        ∃ line, pyStrip line = submitSentinel ∧ pyLstrip out = line ++ p)
    ∧ (∀ p, checkFinishedDocker ⟨out, rc⟩ = some p →
        ∃ line, pyStrip line = submitSentinel ∧ pyRstrip out = p ++ line) :=
  ⟨checkFinishedLocal_isSome out rc, checkFinishedDocker_isSome out rc,
   checkFinishedLocal_decomp out rc, checkFinishedDocker_decomp out rc⟩

/-- C1 counterexample: with return code 1 and the sentinel on the first
line, `LocalEnvironment._check_finished` still raises `Submitted`, so
"raises iff sentinel present AND return code is 0" is false as stated. -/
theorem submitted_iff_sentinel_position_cex :
    ¬ (((checkFinishedLocal
          ⟨"COMPLETE_TASK_AND_SUBMIT_FINAL_OUTPUT\nhello".data, 1⟩).isSome = true)
        ↔ (sentinelFirstLine "COMPLETE_TASK_AND_SUBMIT_FINAL_OUTPUT\nhello".data = true
            ∧ (1 : Int) = 0)) := by decide

/-- C1 witness: the payload decompositions evaluated on concrete outputs. -/
theorem submitted_iff_sentinel_position_witness :
    (∃ line, pyStrip line = submitSentinel ∧
        pyLstrip "COMPLETE_TASK_AND_SUBMIT_FINAL_OUTPUT\nhi".data = line ++ "hi".data)
    ∧ (∃ line, pyStrip line = submitSentinel ∧
        pyRstrip "patch\nCOMPLETE_TASK_AND_SUBMIT_FINAL_OUTPUT\n".data =
          "patch\n".data ++ line) :=
  ⟨(submitted_iff_sentinel_position "COMPLETE_TASK_AND_SUBMIT_FINAL_OUTPUT\nhi".data 0).2.2.1
      "hi".data (by decide),
   (submitted_iff_sentinel_position "patch\nCOMPLETE_TASK_AND_SUBMIT_FINAL_OUTPUT\n".data 0).2.2.2
      "patch\n".data (by decide)⟩

/-!
Claim C10.
-/

/-- C10: `DefaultAgent.has_finished` raises `Submitted` exactly when the
first non-blank line of the output, stripped, equals the legacy sentinel
`MINI_SWE_AGENT_FINAL_OUTPUT` or the sentinel
`COMPLETE_TASK_AND_SUBMIT_FINAL_OUTPUT`, with the remaining lines joined
as the submission text. -/
theorem has_finished_two_sentinels (out : List Char) (rc : Int) :
    ((hasFinished ⟨out, rc⟩).isSome = anySentinelFirstLine out)
    ∧ (∀ p, hasFinished ⟨out, rc⟩ = some p →
        ∃ line, (pyStrip line = legacySentinel ∨ pyStrip line = submitSentinel) ∧
          pyLstrip out = line ++ p) :=
  ⟨hasFinished_isSome out rc, hasFinished_decomp out rc⟩

/-- C10 witness: the legacy sentinel is accepted on a concrete output
(where the plain `_check_finished` of the environments would not fire). -/
theorem has_finished_two_sentinels_witness :
    (∃ line, (pyStrip line = legacySentinel ∨ pyStrip line = submitSentinel) ∧
        pyLstrip "MINI_SWE_AGENT_FINAL_OUTPUT\nok".data = line ++ "ok".data)
    ∧ (hasFinished ⟨"MINI_SWE_AGENT_FINAL_OUTPUT\nok".data, 0⟩).isSome = true
    ∧ checkFinishedLocal ⟨"MINI_SWE_AGENT_FINAL_OUTPUT\nok".data, 0⟩ = none :=
  ⟨(has_finished_two_sentinels "MINI_SWE_AGENT_FINAL_OUTPUT\nok".data 0).2
      "ok".data (by decide),
   by decide, by decide⟩

/-!
Claim C2.
-/

/-- C2: text-dialect action parsing returns exactly one command iff the
regex oracle produced exactly one match; with 0 or 2 or more matches it
raises a `FormatError` whose content is rendered from
`format_error_template` (the rendering applied to the stripped match
list), and no action is returned. -/
theorem parse_regex_exactly_one (render : List (List Char) → List Char)
    (content : List Char) (found : List (List Char)) :
    ((∃ a, parseRegexActions render content found = .ok [a]) ↔ found.length = 1)
    ∧ (found.length ≠ 1 →
        parseRegexActions render content found =
          .error ⟨render (found.map pyStrip), found.length, content⟩)
    ∧ (∀ acts, parseRegexActions render content found = .ok acts → acts.length = 1) := by
  refine ⟨⟨?_, ?_⟩, ?_, ?_⟩
  · rintro ⟨a, ha⟩
    unfold parseRegexActions at ha
    by_cases h : (found.map pyStrip).length ≠ 1
    · rw [if_pos h] at ha
      cases ha
    · push_neg at h
      simpa using h
  · intro h
    obtain ⟨x, hx⟩ := List.length_eq_one.mp h
    subst hx
    exact ⟨⟨pyStrip x⟩, by simp [parseRegexActions]⟩
  · intro h
    unfold parseRegexActions
    rw [if_pos (by simpa using h)]
    simp
  · intro acts ha
    unfold parseRegexActions at ha
    by_cases h : (found.map pyStrip).length ≠ 1
    · rw [if_pos h] at ha
      cases ha
    · rw [if_neg h] at ha
      push_neg at h
      simp only [Except.ok.injEq] at ha
      rw [← ha]
      simpa using h

/-- C2 witness: two matches produce the rendered format error; a single
match parses to its stripped command. -/
theorem parse_regex_exactly_one_witness :
    parseRegexActions List.flatten "echo a".data ["a".data, "b".data] =
      .error ⟨(["a".data, "b".data].map pyStrip).flatten, 2, "echo a".data⟩
    ∧ parseRegexActions List.flatten "run".data [" ls \n".data] = .ok [⟨"ls".data⟩] :=
  ⟨(parse_regex_exactly_one List.flatten "echo a".data ["a".data, "b".data]).2.1 (by decide),
   by rfl⟩

/-!
Claim C4.
-/

/-- C4: `DefaultAgent.query` raises `LimitsExceeded` (without consulting
the model) exactly when `0 < step_limit <= n_calls` or
`0 < cost_limit <= cost`; in particular `step_limit = 0` and
`cost_limit = 0` disable the checks and the query proceeds. -/
theorem query_limits_check (stepLimit : Nat) (costLimit : ℚ) (nCalls : Nat) (cost : ℚ) :
    (agentQuery stepLimit costLimit nCalls cost = .limitsExceeded ↔
      ((0 < stepLimit ∧ stepLimit ≤ nCalls) ∨ (0 < costLimit ∧ costLimit ≤ cost)))
    ∧ (stepLimit = 0 → costLimit = 0 →
        agentQuery stepLimit costLimit nCalls cost = .modelQueried) := by
  constructor
  · unfold agentQuery
    by_cases h : (0 < stepLimit ∧ stepLimit ≤ nCalls) ∨ (0 < costLimit ∧ costLimit ≤ cost)
    · simp [h]
    · simp [h]
  · rintro rfl rfl
    simp [agentQuery]

/-- C4 witness: with both limits zero the model is queried even though the
counters are far along; with a positive step limit reached, it is not. -/
theorem query_limits_check_witness :
    agentQuery 0 0 1000 1000 = .modelQueried
    ∧ agentQuery 3 0 3 0 = .limitsExceeded :=
  ⟨(query_limits_check 0 0 1000 1000).2 rfl rfl,
   (query_limits_check 3 0 3 0).1.mpr (Or.inl (by norm_num))⟩

/-!
Claim C6.
-/

/-- C6: a successful cost computation must be strictly positive.  When the
calculator fails or yields a value at most 0, `cost_tracking = default`
fails the query call with an error while `cost_tracking = ignore_errors`
treats the cost as 0 and returns normally. -/
theorem cost_positive_or_error (calcRes : Option ℚ) :
    (∀ c, calculateCost .default calcRes = .ok c → 0 < c)
    ∧ ((calcRes = none ∨ ∃ c, calcRes = some c ∧ c ≤ 0) →
        calculateCost .default calcRes = .error ()
          ∧ calculateCost .ignoreErrors calcRes = .ok 0)
    ∧ (∀ c, calcRes = some c → 0 < c → ∀ t, calculateCost t calcRes = .ok c) := by
  refine ⟨?_, ?_, ?_⟩
  · intro c h
    cases calcRes with
    | none => simp [calculateCost] at h
    | some c0 =>
        by_cases hc : c0 ≤ 0
        · simp [calculateCost, hc] at h
        · simp [calculateCost, hc] at h
          rw [← h]
          exact lt_of_not_ge hc
  · rintro (rfl | ⟨c, rfl, hc⟩)
    · exact ⟨rfl, rfl⟩
    · simp [calculateCost, hc]
  · rintro c rfl hc t
    have hc' : ¬ c ≤ 0 := not_le_of_gt hc
    cases t <;> simp [calculateCost, hc']

/-- C6 witness: a non-positive computed cost errors under `default` and
yields 0 under `ignore_errors`; a positive cost is returned unchanged. -/
theorem cost_positive_or_error_witness :
    (calculateCost .default (some (-1)) = .error ()
      ∧ calculateCost .ignoreErrors (some (-1)) = .ok 0)
    ∧ calculateCost .default (some 1) = .ok 1 :=
  ⟨(cost_positive_or_error (some (-1))).2.1 (Or.inr ⟨-1, rfl, by norm_num⟩),
   (cost_positive_or_error (some 1)).2.2 1 rfl (by norm_num) .default⟩

/-!
Claim C8.
-/

/-- C8: in every branch of one iteration of `DefaultAgent.run` — normal
step, `NonTerminatingException`, `TerminatingException`
(`Submitted`/`LimitsExceeded`) or any other exception — the trajectory is
saved before control leaves the loop body (before the `continue`, the
`return`, or the re-raise takes effect). -/
theorem run_saves_every_iteration (o : StepOutcome) :
    savedBeforeEveryExit (runIterationEvents o) = true
    ∧ (runIterationEvents o).any RunEvent.isSave = true
    ∧ (runIterationEvents o).any RunEvent.isExit = true := by
  cases o <;> exact ⟨rfl, rfl, rfl⟩

/-!
Claim C3.
-/

/-- C3 (amended): `execute_messages` executes the actions of a turn in
order and emits exactly one observation per action — a timeout observation
for an action that timed out, a regular observation otherwise.  An action
that times out does NOT stop the turn: processing continues with the
remaining actions (the loop appends the timeout observation and
`continue`s). -/
theorem execute_messages_one_obs_per_action (exec : List Char → ExecOutcome)
    (cf : ExecResult → Option (List Char)) :
    (∀ msgs,
      (∀ m ∈ msgs, ∀ a, m.action = some a → ∀ res, exec a = .finished res → cf res = none) →
      executeMessages exec cf msgs =
        .ok (msgs.filterMap fun m => m.action.map fun a => obsOf (exec a)))
    ∧ (∀ m a po rest, m.action = some a → exec a = .timedOut po →
        executeMessages exec cf (m :: rest) =
          (executeMessages exec cf rest).map fun tail => .timeoutObs po :: tail) := by
  constructor
  · intro msgs
    induction msgs with
    | nil => intro _; rfl
    | cons m rest ih =>
        intro H
        have Hrest : ∀ m' ∈ rest, ∀ a, m'.action = some a →
            ∀ res, exec a = .finished res → cf res = none := by
          intro m' hm' a ha res he
          exact H m' (List.mem_cons_of_mem _ hm') a ha res he
        cases hm : m.action with
        | none =>
            simp only [executeMessages, hm, List.filterMap_cons, Option.map_none']
            exact ih Hrest
        | some a =>
            cases he : exec a with
            | timedOut po =>
                simp only [executeMessages, hm, he, ih Hrest, List.filterMap_cons,
                  Option.map_some']
                simp [obsOf, he]
            | finished res =>
                have hcf : cf res = none := H m (List.mem_cons_self m rest) a hm res he
                simp only [executeMessages, hm, he, hcf, ih Hrest, List.filterMap_cons,
                  Option.map_some']
                simp [obsOf, he]
  · intro m a po rest hm he
    cases hrec : executeMessages exec cf rest with
    | ok tail => simp [executeMessages, hm, he, hrec, Except.map]
    | error e => simp [executeMessages, hm, he, hrec, Except.map]

/-- C3 counterexample: with two action messages in the same turn where the
first times out, the second action is still executed and observed — the
claim's "no observations are produced for any subsequent actions of the
same assistant turn" is false. -/
theorem execute_messages_timeout_cex :
    executeMessages
        (fun a => if a = "sleep 100".data then .timedOut [] else .finished ⟨"ok\n".data, 0⟩)
        checkFinishedLocal
        [⟨some "sleep 100".data⟩, ⟨some "echo ok".data⟩] =
      .ok [.timeoutObs [], .obs "ok\n".data 0]
    ∧ ¬ (∀ tail,
          executeMessages
              (fun a => if a = "sleep 100".data then .timedOut [] else .finished ⟨"ok\n".data, 0⟩)
              checkFinishedLocal
              [⟨some "sleep 100".data⟩, ⟨some "echo ok".data⟩] =
            .ok (.timeoutObs [] :: tail) → tail = []) := by
  refine ⟨rfl, fun h => ?_⟩
  have h2 := h [.obs "ok\n".data 0] rfl
  simp at h2

/-- C3 witness: three messages, one without an action, all finishing
without submission: one observation per action, in order. -/
theorem execute_messages_one_obs_per_action_witness :
    executeMessages (fun _ => .finished ⟨"done\n".data, 0⟩) checkFinishedLocal
        [⟨some "ls".data⟩, ⟨none⟩, ⟨some "pwd".data⟩] =
      .ok ([⟨some "ls".data⟩, (⟨none⟩ : EnvMsg), ⟨some "pwd".data⟩].filterMap
            fun m => m.action.map fun a => obsOf ((fun _ => .finished ⟨"done\n".data, 0⟩) a)) :=
  (execute_messages_one_obs_per_action (fun _ => .finished ⟨"done\n".data, 0⟩)
      checkFinishedLocal).1
    [⟨some "ls".data⟩, ⟨none⟩, ⟨some "pwd".data⟩]
    (by
      rintro m hm a ha res he
      injection he with h
      subst h
      decide)

/-!
Dictionary lemmas for C5 and C9.
-/

theorem getKey?_setKey_self (r : List (String × JVal)) (k : String) (v : JVal) :
    getKey? (setKey r k v) k = some v := by
  induction r with
  | nil => simp [setKey, getKey?]
  | cons e rest ih =>
      obtain ⟨k0, v0⟩ := e
      by_cases h : k0 = k
      · simp [setKey, getKey?, h]
      · simp [setKey, getKey?, h, ih]

theorem getKey?_setKey_other (r : List (String × JVal)) (k k' : String) (v : JVal)
    (h : k ≠ k') : getKey? (setKey r k v) k' = getKey? r k' := by
  induction r with
  | nil => simp [setKey, getKey?, h]
  | cons e rest ih =>
      obtain ⟨k0, v0⟩ := e
      by_cases h0 : k0 = k
      · subst h0
        simp [setKey, getKey?, h]
      · simp [setKey, getKey?, h0, ih]

theorem getKey?_eq_none_of_not_mem (l : List (String × JVal)) (k : String)
    (h : k ∉ dictKeys l) : getKey? l k = none := by
  induction l with
  | nil => rfl
  | cons e rest ih =>
      obtain ⟨k0, v0⟩ := e
      have hne : k0 ≠ k := by
        intro hh
        exact h (by simp [dictKeys, hh])
      have hnr : k ∉ dictKeys rest := by
        intro hh
        apply h
        simp only [dictKeys, List.map_cons, List.mem_cons]
        right
        simpa [dictKeys] using hh
      simp [getKey?, hne, ih hnr]

/-- One loop iteration of `recursive_merge`, looked up at its own key. -/
theorem mergeEntry_getKey_self (r : List (String × JVal)) (k : String) (v : JVal) :
    getKey? (mergeEntry r k v) k =
      if v.isUnset then getKey? r k
      else
        match getKey? r k, v with
        | some (.dict rv), .dict dv => some (.dict (mergeOne (stripUnset rv) dv))
        | _, _ => some v := by
  cases v with
  | unsetVal => simp [mergeEntry, JVal.isUnset]
  | dict dv =>
      simp only [mergeEntry, JVal.isUnset, if_false, Bool.false_eq_true]
      cases hr : getKey? r k with
      | none => simp [hr, getKey?_setKey_self]
      | some rv =>
          cases rv <;> simp [hr, getKey?_setKey_self]
  | str s => simp [mergeEntry, JVal.isUnset, getKey?_setKey_self]
  | num n => simp [mergeEntry, JVal.isUnset, getKey?_setKey_self]
  | boolean b => simp [mergeEntry, JVal.isUnset, getKey?_setKey_self]
  | null => simp [mergeEntry, JVal.isUnset, getKey?_setKey_self]
  | arr xs => simp [mergeEntry, JVal.isUnset, getKey?_setKey_self]

/-- One loop iteration of `recursive_merge`, looked up at a different key. -/
theorem mergeEntry_getKey_other (r : List (String × JVal)) (k k' : String) (v : JVal)
    (h : k ≠ k') : getKey? (mergeEntry r k v) k' = getKey? r k' := by
  cases v with
  | unsetVal => rfl
  | dict dv =>
      simp only [mergeEntry]
      cases hr : getKey? r k with
      | none => simp [getKey?_setKey_other _ _ _ _ h]
      | some rv =>
          cases rv <;> simp [getKey?_setKey_other _ _ _ _ h]
  | str s => simp [mergeEntry, getKey?_setKey_other _ _ _ _ h]
  | num n => simp [mergeEntry, getKey?_setKey_other _ _ _ _ h]
  | boolean b => simp [mergeEntry, getKey?_setKey_other _ _ _ _ h]
  | null => simp [mergeEntry, getKey?_setKey_other _ _ _ _ h]
  | arr xs => simp [mergeEntry, getKey?_setKey_other _ _ _ _ h]

/-- Folding one dictionary with unique keys into an accumulated result:
per key, the folded dictionary wins, except that two dictionaries are
merged recursively. -/
theorem mergeOne_getKey (d : List (String × JVal)) :
    ∀ (r : List (String × JVal)) (k : String), (dictKeys d).Nodup →
    getKey? (mergeOne r d) k =
      match getKey? d k with
      | none => getKey? r k
      | some v =>
          if v.isUnset then getKey? r k
          else
            match getKey? r k, v with
            | some (.dict rv), .dict dv => some (.dict (mergeOne (stripUnset rv) dv))
            | _, _ => some v := by
  induction d with
  | nil => intro r k _; simp [mergeOne, getKey?]
  | cons e rest ih =>
      rintro r k hnd
      obtain ⟨k0, v0⟩ := e
      simp only [dictKeys, List.map_cons, List.nodup_cons] at hnd
      obtain ⟨hk0, hndrest⟩ := hnd
      have step : mergeOne r ((k0, v0) :: rest) = mergeOne (mergeEntry r k0 v0) rest := by
        rw [mergeOne]
      rw [step, ih (mergeEntry r k0 v0) k hndrest]
      by_cases hk : k0 = k
      · subst hk
        have hrest : getKey? rest k0 = none :=
          getKey?_eq_none_of_not_mem rest k0 (by simpa [dictKeys] using hk0)
        simp only [getKey?, if_pos rfl, hrest]
        exact mergeEntry_getKey_self r k0 v0
      · have hother : getKey? (mergeEntry r k0 v0) k = getKey? r k :=
          mergeEntry_getKey_other r k0 k v0 hk
        simp only [getKey?, if_neg hk, hother]

/-!
Claim C9.
-/

/-- C9: `recursive_merge` is a deep merge: merging nothing (or only `None`
entries) yields the empty dictionary; dictionaries fold left to right; and
for every key the value from the latest dictionary containing that key
wins, except that when both the already-merged value and the new value are
dictionaries they are merged recursively by the same rule (`UNSET` values
are skipped). -/
theorem recursive_merge_latest_wins :
    recursiveMerge [] = []
    ∧ (∀ ds, (∀ d ∈ ds, d = none) → recursiveMerge ds = [])
    ∧ (∀ ds d, recursiveMerge (ds ++ [some d]) = mergeOne (recursiveMerge ds) d)
    ∧ (∀ r d k, (dictKeys d).Nodup →
        getKey? (mergeOne r d) k =
          match getKey? d k with
          | none => getKey? r k
          | some v =>
              if v.isUnset then getKey? r k
              else
                match getKey? r k, v with
                | some (.dict rv), .dict dv => some (.dict (mergeOne (stripUnset rv) dv))
                | _, _ => some v) := by
  refine ⟨rfl, ?_, ?_, ?_⟩
  · intro ds h
    induction ds with
    | nil => rfl
    | cons d rest ih =>
        have hd : d = none := h d (List.mem_cons_self d rest)
        subst hd
        simpa [recursiveMerge] using
          ih (fun d' hd' => h d' (List.mem_cons_of_mem _ hd'))
  · intro ds d
    simp [recursiveMerge, List.foldl_append]
  · intro r d k hnd
    exact mergeOne_getKey d r k hnd

/-- C9 witness: on concrete dictionaries the latest value wins for a fresh
key and nested dictionaries are merged recursively. -/
theorem recursive_merge_latest_wins_witness :
    (getKey? (mergeOne [("a", .num 1), ("b", .dict [("x", .num 1)])]
        [("b", .dict [("y", .num 2)]), ("c", .num 3)]) "b" =
      some (.dict (mergeOne (stripUnset [("x", .num 1)]) [("y", .num 2)])))
    ∧ (getKey? (mergeOne [("a", .num 1), ("b", .dict [("x", .num 1)])]
        [("b", .dict [("y", .num 2)]), ("c", .num 3)]) "a" =
      some (.num 1))
    ∧ (getKey? (mergeOne [("a", .num 1), ("b", .dict [("x", .num 1)])]
        [("b", .dict [("y", .num 2)]), ("c", .num 3)]) "c" =
      some (.num 3)) :=
  ⟨recursive_merge_latest_wins.2.2.2 [("a", .num 1), ("b", .dict [("x", .num 1)])]
      [("b", .dict [("y", .num 2)]), ("c", .num 3)] "b" (by decide),
   recursive_merge_latest_wins.2.2.2 [("a", .num 1), ("b", .dict [("x", .num 1)])]
      [("b", .dict [("y", .num 2)]), ("c", .num 3)] "a" (by decide),
   recursive_merge_latest_wins.2.2.2 [("a", .num 1), ("b", .dict [("x", .num 1)])]
      [("b", .dict [("y", .num 2)]), ("c", .num 3)] "c" (by decide)⟩

/-!
Claim C5.
-/

/-- C5 (amended): saving a trajectory stamps
`trajectory_format = "mini-swe-agent-1"` and the version string into the
output, creates the missing parent directories of the target path, and
writes the pretty-printed JSON directly to the target path with a single
`write_text` call; no temporary file is written and no rename is
performed. -/
theorem save_stamps_and_writes (agentSer modelSer envSer : List (String × JVal))
    (extra : List (Option (List (String × JVal)))) (version : String) :
    (∀ data, saveData agentSer modelSer envSer extra version = some data →
      getKey? data "trajectory_format" = some (.str "mini-swe-agent-1")
      ∧ (∃ info, getKey? data "info" = some (.dict info)
          ∧ getKey? info "mini_version" = some (.str version)))
    ∧ (∀ p data, agentSaveOps (some p) data = [.mkdirParents p.dropLast, .writeText p data])
    ∧ (∀ path data, ((agentSaveOps path data).any FileOp.isRename) = false) := by
  refine ⟨?_, fun p data => rfl, ?_⟩
  · intro data hdata
    dsimp only [saveData] at hdata
    split at hdata
    · next info heq =>
        simp only [Option.some.injEq] at hdata
        subst hdata
        constructor
        · rw [getKey?_setKey_other _ "info" "trajectory_format" _ (by decide),
            getKey?_setKey_self]
        · exact ⟨setKey info "mini_version" (.str version),
            getKey?_setKey_self _ _ _, getKey?_setKey_self _ _ _⟩
    · cases hdata
  · intro path data
    cases path with
    | none => rfl
    | some p => rfl

/-- C5 counterexample: the file-system trace of `DefaultAgent.save` on a
concrete path is exactly a `mkdir` of the parent followed by one direct
write of the target; it contains no rename (and no write to a temporary
path), so the claimed write-to-temporary-then-rename protocol is absent. -/
theorem save_stamps_and_writes_cex :
    agentSaveOps (some ["out", "traj.json"]) [("messages", .arr [])] =
      [.mkdirParents ["out"], .writeText ["out", "traj.json"] [("messages", .arr [])]]
    ∧ ((agentSaveOps (some ["out", "traj.json"]) [("messages", .arr [])]).any
        FileOp.isRename) = false :=
  ⟨rfl, rfl⟩

/-- C5 witness: a concrete save stamps the format marker and the version. -/
theorem save_stamps_and_writes_witness :
    ∃ data,
      saveData
          (agentSerialize (.dict []) "minisweagent.agents.default.DefaultAgent" (.arr []))
          [] [] [] "1.0.0" = some data
      ∧ getKey? data "trajectory_format" = some (.str "mini-swe-agent-1")
      ∧ (∃ info, getKey? data "info" = some (.dict info)
          ∧ getKey? info "mini_version" = some (.str "1.0.0")) := by
  refine ⟨_, rfl, ?_⟩
  exact (save_stamps_and_writes
      (agentSerialize (.dict []) "minisweagent.agents.default.DefaultAgent" (.arr []))
      [] [] [] "1.0.0").1 _ rfl

/-!
Claim C7.
-/

theorem runRetryAux_attempts_le (p : ErrClass → Bool) (oracle : Nat → AttemptResult) :
    ∀ fuel used, (runRetryAux p oracle used fuel).attemptsMade ≤ used + fuel := by
  intro fuel
  induction fuel with
  | zero => intro used; simp [runRetryAux, RetryOutcome.attemptsMade]
  | succ n ih =>
      intro used
      cases h : oracle used with
      | success =>
          simp [runRetryAux, h, RetryOutcome.attemptsMade]
      | failure e =>
          by_cases hp : p e
          · simp [runRetryAux, h, hp, RetryOutcome.attemptsMade]
          · simp only [runRetryAux, h, hp, Bool.false_eq_true, if_false]
            have := ih (used + 1)
            omega

theorem runRetryAux_first_abort (p : ErrClass → Bool) (oracle : Nat → AttemptResult)
    (used fuel : Nat) (e : ErrClass) (h0 : oracle used = .failure e) (hp : p e = true)
    (hf : 0 < fuel) : runRetryAux p oracle used fuel = .aborted e (used + 1) := by
  cases fuel with
  | zero => exact absurd hf (lt_irrefl 0)
  | succ n => simp [runRetryAux, h0, hp]

/-- C7 (amended): the litellm-based backends abort immediately, without
any retry attempt, on the six classes unsupported-params, not-found,
permission-denied, context-window-exceeded, authentication and user
cancel; the Portkey backend aborts only on user cancel and retries every
other error class, authentication included; all backends bound their
attempts by 10. -/
theorem retry_abort_classes (e : ErrClass) (oracle : Nat → AttemptResult) :
    (e ∈ abortClassList →
      abortsOn .litellm e = true
      ∧ abortsOn .litellmResponseApi e = true
      ∧ (oracle 0 = .failure e →
          runRetry (abortsOn .litellm) 10 oracle = .aborted e 1
          ∧ runRetry (abortsOn .litellmResponseApi) 10 oracle = .aborted e 1))
    ∧ (abortsOn .portkey e = true ↔ e = .userCancel)
    ∧ (∀ b, (runRetry (abortsOn b) 10 oracle).attemptsMade ≤ 10) := by
  refine ⟨?_, ?_, ?_⟩
  · intro he
    have h1 : abortsOn .litellm e = true := by
      simp only [abortClassList, List.mem_cons, List.not_mem_nil, or_false] at he
      rcases he with rfl | rfl | rfl | rfl | rfl | rfl <;> rfl
    have h2 : abortsOn .litellmResponseApi e = true := by
      simp only [abortClassList, List.mem_cons, List.not_mem_nil, or_false] at he
      rcases he with rfl | rfl | rfl | rfl | rfl | rfl <;> rfl
    refine ⟨h1, h2, fun h0 => ⟨?_, ?_⟩⟩
    · rw [runRetry]
      exact runRetryAux_first_abort _ _ 0 10 e h0 h1 (by norm_num)
    · rw [runRetry]
      exact runRetryAux_first_abort _ _ 0 10 e h0 h2 (by norm_num)
  · cases e <;> simp [abortsOn]
  · intro b
    simpa using runRetryAux_attempts_le (abortsOn b) oracle 10 0

/-- C7 counterexample: an authentication error is in the abort list, but
the Portkey backend's tenacity predicate retries it — ten attempts are
made instead of an immediate abort, so the claim quantified over every
backend is false. -/
theorem retry_abort_classes_cex :
    abortsOn .portkey .authentication = false
    ∧ ErrClass.authentication ∈ abortClassList
    ∧ runRetry (abortsOn .portkey) 10 (fun _ => .failure .authentication) =
        .exhausted 10 := by
  refine ⟨rfl, by simp [abortClassList], by rfl⟩

/-- C7 witness: an authentication failure on the first attempt aborts the
litellm backends after exactly one attempt. -/
theorem retry_abort_classes_witness :
    runRetry (abortsOn .litellm) 10 (fun _ => .failure .authentication) =
      .aborted .authentication 1
    ∧ runRetry (abortsOn .litellmResponseApi) 10 (fun _ => .failure .authentication) =
      .aborted .authentication 1 :=
  ((retry_abort_classes .authentication (fun _ => .failure .authentication)).1
      (by simp [abortClassList])).2.2 rfl
